import Mathlib

/-!
Shallow embedding of the pbp-fasilkom-ui/pws git server core
(src/git.rs and src/queue.rs) together with proofs about the
behaviour of its pkt-line codec, push-auth middleware, receive-pack
working-copy synchronizer, and build queue.

Rust strings are embedded as `List Char`; raw byte buffers as
`List Nat` (each entry < 256 on the inputs of interest).
-/

namespace Pws

/-! ## pkt-line codec (src/git.rs lines 204-219) -/

/-- One lowercase hexadecimal digit, as produced by Rust formatting
with the x flag: 0-9 then a-f. -/
def hexDigit (n : Nat) : Char :=
  if n < 10 then Char.ofNat (48 + n) else Char.ofNat (87 + n)

/-- Digits of a number in base 16, most significant first, empty for 0.
Mirrors the digit production of Rust format with the x flag. -/
def toHexAux (n : Nat) : List Char :=
  if h : n = 0 then []
  else toHexAux (n / 16) ++ [hexDigit (n % 16)]
termination_by n
decreasing_by exact Nat.div_lt_self (Nat.pos_of_ne_zero h) (by norm_num)

/-- Rust format with the x flag: lowercase hex, and 0 prints as the
single digit 0. -/
def toHex (n : Nat) : List Char :=
  if n = 0 then ['0'] else toHexAux n

/-- The while loop of packet_write: insert the digit 0 in front until
the length is a multiple of 4. -/
def padMod4 (l : List Char) : List Char :=
  if l.length % 4 = 0 then l else padMod4 ('0' :: l)
termination_by (4 - l.length % 4) % 4
decreasing_by simp only [List.length_cons]; omega

/-- src/git.rs packet_write: length prefix (payload length plus 4) in
lowercase hex padded with zeros to a multiple of 4 digits, followed by
the payload bytes. -/
def packet_write (s : List Nat) : List Nat :=
  (padMod4 (toHex (s.length + 4))).map Char.toNat ++ s

/-- src/git.rs packet_flush: the literal four bytes of the string 0000. -/
def packet_flush : List Nat :=
  "0000".data.map Char.toNat

/-- Value of one hex digit byte (ASCII): 48-57 are 0-9, 97-102 are a-f.
Used only to state what parsing the length prefix yields. -/
def hexValByte (b : Nat) : Nat :=
  if b < 97 then b - 48 else b - 87

/-- Parse a big-endian sequence of hex digit bytes. -/
def parseHexBytes (l : List Nat) : Nat :=
  l.foldl (fun acc b => acc * 16 + hexValByte b) 0

/-- A byte is a lowercase hexadecimal digit in ASCII. -/
def IsLowerHexByte (b : Nat) : Prop :=
  (48 ≤ b ∧ b ≤ 57) ∨ (97 ≤ b ∧ b ≤ 102)

instance (b : Nat) : Decidable (IsLowerHexByte b) := by
  unfold IsLowerHexByte; infer_instance

/-! ## Repository name canonicalization (src/git.rs lines 59-64)

The middleware does: if the repo name ends with .git, take
repo.split(".git").next(), i.e. the part of the name before the FIRST
occurrence of .git; otherwise keep the name. -/

/-- The characters before the first occurrence of .git, or the whole
list when .git does not occur: this is what the Rust iterator
repo.split(".git").next() yields. -/
def takeUntilDotGit : List Char → List Char
  | [] => []
  | c :: rest =>
    if ".git".data.isPrefixOf (c :: rest) then []
    else c :: takeUntilDotGit rest

/-- src/git.rs lines 59-64: canonicalize the repo path parameter. -/
def canonicalizeRepo (repo : List Char) : List Char :=
  if ".git".data.isSuffixOf repo then takeUntilDotGit repo else repo

/-- Written from the words of claim C5: remove exactly one trailing
.git suffix, leave other names unchanged. Stated only to be compared
with canonicalizeRepo, which is translated from the source. -/
def claimedCanonicalizeRepo (repo : List Char) : List Char :=
  if ".git".data.isSuffixOf repo then repo.take (repo.length - 4) else repo

/-! ## Container name derivation (src/git.rs lines 367-368) -/

/-- Rust trim_end_matches with pattern .git removes every trailing
repetition of the suffix. The fuel argument starts at the length of
the list; each strip removes four characters, so the fuel never runs
out before the loop is done. -/
def trimEndDotGitAux : Nat → List Char → List Char
  | 0, l => l
  | fuel + 1, l =>
    if ".git".data.isSuffixOf l then
      trimEndDotGitAux fuel (l.take (l.length - 4))
    else l

/-- repo.trim_end_matches(".git") from src/git.rs line 368. -/
def trimEndDotGit (l : List Char) : List Char :=
  trimEndDotGitAux l.length l

/-- str::replace of the character . by the character - applied to every
occurrence. -/
def dotToDash (l : List Char) : List Char :=
  l.map (fun c => if c = '.' then '-' else c)

/-- src/git.rs line 368: the container name sent to the build queue. -/
def container_name (owner repo : List Char) : List Char :=
  dotToDash (owner ++ ['-'] ++ trimEndDotGit repo)

/-- Written from the words of claim C9: remove one trailing .git
suffix from the repo, then replace every dot by a dash in
owner-dash-repo. Stated only to be compared with container_name, which
is translated from the source. -/
def claimedContainerName (owner repo : List Char) : List Char :=
  dotToDash (owner ++ ['-'] ++
    (if ".git".data.isSuffixOf repo then repo.take (repo.length - 4) else repo))

/-! ## Repository path layout (src/git.rs lines 347-350) -/

/-- Path of the bare repository for an owner and repo parameter, as
computed at the top of receive_pack_rpc, upload_pack_rpc and
get_info_refs. -/
def repoPath (base owner repo : List Char) : List Char :=
  if ".git".data.isSuffixOf repo then
    base ++ '/' :: owner ++ '/' :: repo
  else
    base ++ '/' :: owner ++ '/' :: repo ++ ".git".data

/-! ## Build queue (src/queue.rs)

The two cooperating tasks process_task_enqueue (lines 365-446) and
process_task_poll (lines 253-363) share a waiting queue, a waiting set
of container names, and an atomic count of available build slots. We
model the shared state plus the multiset of in-flight builds, and each
atomic step either task can take as an event of a transition system. -/

/-- Outcome of one spawned build task (src/queue.rs lines 316-350):
the timeout wrapper around trigger_build either yields the subdomain,
a build error, or expires. -/
inductive BuildOutcome where
  | success (subdomain : String)
  | builderError (message : String)
  | timeoutExpired
deriving DecidableEq, Repr

/-- Shared state of the build queue: available slots (the build_count
atomic), the waiting queue and waiting set (container names), the
multiset of dispatched builds not yet finished, and how many build
records the enqueue task has inserted. -/
structure QueueState where
  slots : Nat
  queue : List String
  wset : List String
  inflight : List String
  records : Nat
deriving DecidableEq, Repr

/-- Initial state: the pool is constructed with capacity slots and
empty queue, set and in-flight collection (src/queue.rs lines 75-89). -/
def initQueue (capacity : Nat) : QueueState :=
  { slots := capacity, queue := [], wset := [], inflight := [], records := 0 }

/-- One atomic step of either queue task. enqueue carries whether the
project lookup and the build record insert succeed; dispatch is one
successful pass of the poll loop; finish is the completion of one
spawned build, with its outcome. -/
inductive QEvent where
  | enqueue (name : String) (projectOk : Bool) (insertOk : Bool)
  | dispatch
  | finish (name : String) (outcome : BuildOutcome)

/-- Transition function.

enqueue (src/queue.rs lines 371-445): drop the message when the
project lookup fails, when the container name is already in the
waiting set, or when the record insert fails; otherwise insert one
build record, add the name to the waiting set and append to the queue.

dispatch (src/queue.rs lines 278-308): when a slot is available and
the queue is non-empty, pop the front item, remove its name from the
waiting set at that moment, and decrement the slot count.

finish (src/queue.rs lines 316-353): whatever the outcome, the
spawned task finally increments the slot count. -/
def step (s : QueueState) : QEvent → QueueState
  | .enqueue name projectOk insertOk =>
    if ¬projectOk then s
    else if name ∈ s.wset then s
    else if ¬insertOk then s
    else { s with records := s.records + 1,
                  wset := name :: s.wset,
                  queue := s.queue ++ [name] }
  | .dispatch =>
    if s.slots > 0 then
      match s.queue with
      | [] => s
      | name :: rest =>
        { s with queue := rest,
                 wset := s.wset.erase name,
                 slots := s.slots - 1,
                 inflight := name :: s.inflight }
    else s
  | .finish name _outcome =>
    if name ∈ s.inflight then
      { s with inflight := s.inflight.erase name, slots := s.slots + 1 }
    else s

/-- Run a sequence of events from the initial state. -/
def runQueue (capacity : Nat) (evts : List QEvent) : QueueState :=
  evts.foldl step (initQueue capacity)

/-- src/queue.rs line 313: the per-build timeout is the configured
millisecond value divided by 1000, in whole seconds. -/
def timeoutSeconds (timeoutMs : Nat) : Nat := timeoutMs / 1000

/-- The build record update performed by the spawned wrapper task
itself (src/queue.rs lines 316-350): only on timeout does the wrapper
write a record, marking the build failed with the timeout message.
On the other outcomes the record was already written inside
trigger_build. -/
def buildTaskRecordUpdate (timeoutMs : Nat) : BuildOutcome → Option (String × String)
  | .timeoutExpired =>
    some ("failed", "Build timeout after " ++ toString (timeoutSeconds timeoutMs) ++ " seconds")
  | _ => none

/-- The queue bookkeeping invariant: the waiting queue and the waiting
set hold each container name at most once and hold exactly the same
names. -/
def QInv (s : QueueState) : Prop :=
  s.queue.Nodup ∧ s.wset.Nodup ∧ ∀ n, n ∈ s.queue ↔ n ∈ s.wset

/-! ## Push-auth middleware (src/git.rs lines 36-122) -/

/-- One row of the token query (src/git.rs lines 83-91). -/
structure AuthRow where
  project_name : List Char
  project_owner : List Char
  token : List Char
deriving DecidableEq, Repr

/-- Result of the token query for a given owner name: the Ok rows, the
sqlx RowNotFound error, or any other database error. -/
inductive StoreResult where
  | ok (rows : List AuthRow)
  | rowNotFound
  | err
deriving DecidableEq, Repr

/-- What the middleware does with a request. reject carries the HTTP
status, the realm of the WWW-Authenticate Basic challenge, and whether
the body is empty. panic models a Rust panic from unwrap: the
middleware returns no response at all. -/
inductive AuthDecision where
  | pass
  | reject (status : Nat) (realm : String) (bodyEmpty : Bool)
  | panic
deriving DecidableEq, Repr

/-- Rust split_whitespace: maximal runs of non-whitespace characters.
Header values reaching this point are visible ASCII, so ASCII
whitespace suffices. -/
def splitWS : List Char → List Char → List (List Char)
  | [], acc => if acc = [] then [] else [acc.reverse]
  | c :: rest, acc =>
    if c.isWhitespace then
      if acc = [] then splitWS rest [] else acc.reverse :: splitWS rest []
    else splitWS rest (c :: acc)

/-- The tokens of an authorization header value, in order. -/
def wsTokens (l : List Char) : List (List Char) := splitWS l []

/-- Value of one base64 alphabet character (RFC 4648), none for a
character outside the alphabet. -/
def b64Char (c : Char) : Option Nat :=
  if 65 ≤ c.toNat ∧ c.toNat ≤ 90 then some (c.toNat - 65)
  else if 97 ≤ c.toNat ∧ c.toNat ≤ 122 then some (c.toNat - 97 + 26)
  else if 48 ≤ c.toNat ∧ c.toNat ≤ 57 then some (c.toNat - 48 + 52)
  else if c = '+' then some (62 : Nat)
  else if c = '/' then some (63 : Nat)
  else none

/-- Decode one base64 quantum of four characters, with the canonical
padding checks the data_encoding BASE64 spec performs: padding only in
the last one or two positions and zero trailing bits. -/
def b64Chunk (c1 c2 c3 c4 : Char) : Option (List Nat) :=
  match b64Char c1, b64Char c2 with
  | some v1, some v2 =>
    if c3 = '=' then
      if c4 = '=' then
        if v2 % 16 = 0 then some [v1 * 4 + v2 / 16] else none
      else none
    else
      match b64Char c3 with
      | some v3 =>
        if c4 = '=' then
          if v3 % 4 = 0 then some [v1 * 4 + v2 / 16, (v2 % 16) * 16 + v3 / 4]
          else none
        else
          match b64Char c4 with
          | some v4 => some [v1 * 4 + v2 / 16, (v2 % 16) * 16 + v3 / 4, (v3 % 4) * 64 + v4]
          | none => none
      | none => none
  | _, _ => none

/-- data_encoding BASE64 decoding: the input length must be a multiple
of four, every quantum must be valid, and a padded quantum must be the
last one. Inputs of any other shape are a DecodeError, on which the
middleware calls unwrap. -/
def base64Decode : List Char → Option (List Nat)
  | [] => some []
  | c1 :: c2 :: c3 :: c4 :: rest =>
    match b64Chunk c1 c2 c3 c4, base64Decode rest with
    | some bs, some more =>
      if (c3 = '=' ∨ c4 = '=') ∧ rest ≠ [] then none else some (bs ++ more)
    | _, _ => none
  | _ => none

/-- A UTF-8 continuation byte. -/
def isCont (b : Nat) : Bool := 128 ≤ b && b ≤ 191

/-- Allowed second byte of a three-byte UTF-8 sequence, per the ranges
String::from_utf8 accepts (overlongs and surrogates rejected). -/
def utf8Second3 (b1 b2 : Nat) : Bool :=
  if b1 = 224 then 160 ≤ b2 && b2 ≤ 191
  else if b1 = 237 then 128 ≤ b2 && b2 ≤ 159
  else isCont b2

/-- Allowed second byte of a four-byte UTF-8 sequence, per the ranges
String::from_utf8 accepts. -/
def utf8Second4 (b1 b2 : Nat) : Bool :=
  if b1 = 240 then 144 ≤ b2 && b2 ≤ 191
  else if b1 = 244 then 128 ≤ b2 && b2 ≤ 143
  else isCont b2

/-- UTF-8 validation and decoding as String::from_utf8 performs it.
The fuel argument starts at the length of the byte list; every step
consumes at least one byte, so the fuel never runs out. -/
def utf8DecodeAux : Nat → List Nat → Option (List Char)
  | _, [] => some []
  | 0, _ :: _ => none
  | fuel + 1, b1 :: t =>
    if b1 < 128 then
      (utf8DecodeAux fuel t).map (Char.ofNat b1 :: ·)
    else if 194 ≤ b1 ∧ b1 ≤ 223 then
      match t with
      | b2 :: t2 =>
        if isCont b2 then
          (utf8DecodeAux fuel t2).map (Char.ofNat ((b1 % 32) * 64 + b2 % 64) :: ·)
        else none
      | [] => none
    else if 224 ≤ b1 ∧ b1 ≤ 239 then
      match t with
      | b2 :: b3 :: t3 =>
        if utf8Second3 b1 b2 && isCont b3 then
          (utf8DecodeAux fuel t3).map
            (Char.ofNat ((b1 % 16) * 4096 + (b2 % 64) * 64 + b3 % 64) :: ·)
        else none
      | _ => none
    else if 240 ≤ b1 ∧ b1 ≤ 244 then
      match t with
      | b2 :: b3 :: b4 :: t4 =>
        if utf8Second4 b1 b2 && isCont b3 && isCont b4 then
          (utf8DecodeAux fuel t4).map
            (Char.ofNat ((b1 % 8) * 262144 + (b2 % 64) * 4096 + (b3 % 64) * 64 + b4 % 64) :: ·)
        else none
      | _ => none
    else none

/-- String::from_utf8 on a byte vector. -/
def utf8Decode (bs : List Nat) : Option (List Char) :=
  utf8DecodeAux bs.length bs

/-- The part of a decoded credential before the first colon: the first
element of the Rust split on the colon character. -/
def takeUntilColon : List Char → List Char
  | [] => []
  | c :: rest => if c = ':' then [] else c :: takeUntilColon rest

/-- The rest after the first colon, when one exists. -/
def dropThroughColon : List Char → Option (List Char)
  | [] => none
  | c :: rest => if c = ':' then some rest else dropThroughColon rest

/-- The second element of the Rust split on the colon character, with
the empty default of unwrap_or: the characters between the first and
the second colon. -/
def secondColonField (l : List Char) : List Char :=
  match dropThroughColon l with
  | none => []
  | some rest => takeUntilColon rest

/-- Decode the base64 payload of a Basic authorization header into the
owner name and token the middleware compares against the store, or
none when either unwrap in src/git.rs lines 77-78 panics. -/
def decodeCreds (tok : List Char) : Option (List Char × List Char) :=
  match base64Decode tok with
  | none => none
  | some bytes =>
    match utf8Decode bytes with
    | none => none
    | some decoded => some (takeUntilColon decoded, secondColonField decoded)

/-- src/git.rs lines 36-122, basic_auth. The store argument is the
token query keyed by the owner name decoded from the credentials; the
path owner parameter is ignored by the source (binder underscore
owner) and therefore absent here. -/
def basic_auth (gitAuth : Bool) (repo : List Char) (authHeader : Option (List Char))
    (store : List Char → StoreResult) : AuthDecision :=
  if ¬gitAuth then .pass
  else
    let repoC := canonicalizeRepo repo
    match authHeader with
    | none => .reject 401 "git" true
    | some auth =>
      let parts := wsTokens auth
      let scheme := parts.getD 0 []
      let tok := parts.getD 1 []
      if scheme ≠ "Basic".data then .reject 401 "git" true
      else
        match decodeCreds tok with
        | none => .panic
        | some (owner_name, token) =>
          match store owner_name with
          | .rowNotFound => .reject 401 "failed to login" true
          | .err => .reject 401 "git" true
          | .ok rows =>
            if rows.any (fun r =>
                r.token == token && r.project_name == repoC && r.project_owner == owner_name)
            then .pass
            else .reject 401 "failed to login" true

/-- The middleware at the signature of its route: src/git.rs line 38
extracts the pair of path parameters, binding the first as the unused
underscore owner and passing only the repo on. The route owner
parameter therefore never reaches any comparison. -/
def basic_auth_route (gitAuth : Bool) (_owner repo : List Char)
    (authHeader : Option (List Char)) (store : List Char → StoreResult) : AuthDecision :=
  basic_auth gitAuth repo authHeader store

/-! ## receive_pack_rpc working-copy sync (src/git.rs lines 337-455)

The handler calls the external git and git2 operations; their results
are oracles in the environment below, while the clone directory is an
explicit piece of state. The enqueue of the BuildQueueItem and the
filesystem operations are recorded as an action trace. -/

/-- Results of the external operations the handler performs, observed
in program order. bareHead is the commit that opening the bare
repository and resolving HEAD yields (none covers both an open failure
and a revparse failure, which the source handles identically). -/
structure SyncEnv where
  rpcStatus : Nat
  rpcContentLengthZero : Bool
  bareHead : Option Nat
  removeOk : Bool
  cloneOk : Bool
  setHeadOk : Bool
  checkoutOk : Bool
deriving DecidableEq, Repr

/-- The clone working copy on disk: whether the directory exists and
which commit its HEAD points at. -/
structure FsState where
  clonePresent : Bool
  cloneHead : Option Nat
deriving DecidableEq, Repr

/-- What the handler answers: the response of the inner service_rpc
passed through, or an error response it builds itself. -/
inductive RpOutcome where
  | passthrough
  | errorResp (status : Nat) (bodyEmpty : Bool)
deriving DecidableEq, Repr

/-- Externally visible operations of the sync path, in order. An entry
is recorded when the operation is performed and succeeds; a failed
remove, set-head or checkout is only logged by the source. -/
inductive SyncAction where
  | removeClone
  | cloneRepo
  | setHead (commit : Nat)
  | checkoutHead
  | enqueueItem (containerName containerSrc : List Char)
deriving DecidableEq, Repr

/-- src/git.rs lines 337-455, receive_pack_rpc after the inner
service_rpc call. Returns the response, the final clone state, and the
trace of performed operations. -/
def receive_pack_rpc (base owner repo : List Char) (env : SyncEnv) (st : FsState) :
    RpOutcome × FsState × List SyncAction :=
  let path := repoPath base owner repo
  if env.rpcStatus ≠ 200 then (.passthrough, st, [])
  else if env.rpcContentLengthZero then (.passthrough, st, [])
  else
    let containerSrc := path ++ "/clone".data
    let containerName := container_name owner repo
    match env.bareHead with
    | none => (.errorResp 500 true, st, [])
    | some head_commit_id =>
      let removed := st.clonePresent && env.removeOk
      let st1 : FsState :=
        if removed then { clonePresent := false, cloneHead := none } else st
      let acts1 : List SyncAction := if removed then [.removeClone] else []
      if ¬env.cloneOk then (.errorResp 500 true, st1, acts1)
      else
        -- git2 clone of the bare repository: the fresh clone starts at
        -- the bare HEAD; set_head_detached then pins the recorded commit.
        let st2 : FsState := { clonePresent := true, cloneHead := env.bareHead }
        let st3 : FsState :=
          if env.setHeadOk then { st2 with cloneHead := some head_commit_id } else st2
        let acts3 : List SyncAction := if env.setHeadOk then [.setHead head_commit_id] else []
        let acts4 : List SyncAction :=
          if env.setHeadOk && env.checkoutOk then [.checkoutHead] else []
        (.passthrough, st3,
          acts1 ++ [.cloneRepo] ++ acts3 ++ acts4 ++ [.enqueueItem containerName containerSrc])

/-! ## get_info_refs, service outside the smart set (src/git.rs lines 553-587) -/

/-- src/git.rs lines 197-202: strip the git- prefix of the service
query parameter, empty when the prefix is absent. -/
def get_git_service (service : List Char) : List Char :=
  if "git-".data.isPrefixOf service then service.drop 4 else []

/-- A plain HTTP response with an optional body and content type. -/
structure HttpResponse where
  status : Nat
  body : Option String
  contentType : Option String
deriving DecidableEq, Repr

/-- src/git.rs lines 553-587, the branch of get_info_refs taken when
the service is neither receive-pack nor upload-pack. The filesystem is
a map from paths to readable file contents. After running git
update-server-info, the source calls File::open on the bare repository
path itself (line 574 opens path, not path/info/refs) and serves what
it reads. The smart advertisement branch is not modelled (none). -/
def get_info_refs_dumb (fs : List Char → Option String)
    (base owner repo service : List Char) : Option HttpResponse :=
  let svc := get_git_service service
  let path := repoPath base owner repo
  if svc ≠ "receive-pack".data ∧ svc ≠ "upload-pack".data then
    some
      (match fs path with
       | none => { status := 404, body := none, contentType := none }
       | some contents =>
         { status := 200, body := some contents,
           contentType := some "text/plain; charset=utf-8" })
  else none

/-! ## Auxiliary concrete objects used by witnesses -/

/-- A store with a single project row for owner a, project r, token b. -/
def witnessStore : List Char → StoreResult :=
  fun o =>
    if o = "a".data then .ok [{ project_name := "r".data, project_owner := "a".data, token := "b".data }]
    else .err

/-- The single token row of the C4 counterexample store: the owner bob
holds a project named proj with token tok. Nobody named alice owns
anything. -/
def c4rows : List AuthRow :=
  [{ project_name := "proj".data, project_owner := "bob".data, token := "tok".data }]

/-- The C4 counterexample store: the token query returns the row of
bob for the owner name bob and no rows for any other owner name. -/
def c4store : List Char → StoreResult :=
  fun o => if o = "bob".data then .ok c4rows else .ok []

/-- A filesystem holding exactly one readable file: the info/refs file
of the bare repository at b/o/r.git. -/
def c8fs : List Char → Option String :=
  fun p =>
    if p = repoPath "b".data "o".data "r".data ++ "/info/refs".data then some "REFS"
    else none

/-! # Theorems -/

/-! ## Lemmas on the first-occurrence truncation of takeUntilDotGit -/

theorem takeUntilDotGit_front (l : List Char) : takeUntilDotGit l <+: l := by
  induction l with
  | nil => exact List.nil_prefix
  | cons c rest ih =>
    rw [takeUntilDotGit]
    split
    · exact List.nil_prefix
    · obtain ⟨t, ht⟩ := ih
      exact ⟨t, by rw [List.cons_append, ht]⟩

theorem takeUntilDotGit_no_dotgit (l : List Char) :
    ¬ (".git".data <:+: takeUntilDotGit l) := by
  induction l with
  | nil =>
    intro h
    rw [takeUntilDotGit, List.infix_nil] at h
    simp at h
  | cons c rest ih =>
    rw [takeUntilDotGit]
    split
    · intro h
      rw [List.infix_nil] at h
      simp at h
    · rename_i hcond
      intro h
      rcases List.infix_cons_iff.mp h with hpre | hinf
      · apply hcond
        rw [List.isPrefixOf_iff_prefix]
        rcases List.prefix_cons_iff.mp hpre with h0 | ⟨t, h1, h2⟩
        · simp at h0
        · rw [h1]
          exact List.prefix_cons_iff.mpr
            (Or.inr ⟨t, rfl, h2.trans (takeUntilDotGit_front rest)⟩)
      · exact ih hinf

theorem takeUntilDotGit_first_occurrence (l : List Char)
    (h : ".git".data <:+: l) :
    takeUntilDotGit l ++ ".git".data <+: l := by
  induction l with
  | nil =>
    rw [List.infix_nil] at h
    simp at h
  | cons c rest ih =>
    rw [takeUntilDotGit]
    split
    · rename_i hcond
      rw [List.isPrefixOf_iff_prefix] at hcond
      simpa using hcond
    · rename_i hcond
      rcases List.infix_cons_iff.mp h with hpre | hinf
      · exact absurd (List.isPrefixOf_iff_prefix.mpr hpre) (by simpa using hcond)
      · obtain ⟨t, ht⟩ := ih hinf
        exact ⟨t, by rw [List.cons_append, List.cons_append, ht]⟩

/-- C5 counterexample: the middleware truncates at the FIRST occurrence
of .git, so a.gitb.git canonicalizes to a, not to a.gitb as the claim
states. -/
theorem canonicalizeRepo_counterexample_C5 :
    canonicalizeRepo "a.gitb.git".data ≠ claimedCanonicalizeRepo "a.gitb.git".data ∧
    canonicalizeRepo "a.gitb.git".data = "a".data ∧
    claimedCanonicalizeRepo "a.gitb.git".data = "a.gitb".data := by
  decide

/-- C5 (amended): a repo name not ending in .git is left unchanged; a
name ending in .git is truncated at the first occurrence of .git: the
canonical form is a prefix of the name, contains no occurrence of
.git, and the name continues with .git right after it. -/
theorem canonicalizeRepo_amended_C5 (repo : List Char) :
    (".git".data.isSuffixOf repo = false → canonicalizeRepo repo = repo) ∧
    (".git".data.isSuffixOf repo = true →
      canonicalizeRepo repo <+: repo ∧
      ¬ (".git".data <:+: canonicalizeRepo repo) ∧
      canonicalizeRepo repo ++ ".git".data <+: repo) := by
  constructor
  · intro h
    rw [canonicalizeRepo, h]
    simp
  · intro h
    have hcanon : canonicalizeRepo repo = takeUntilDotGit repo := by
      rw [canonicalizeRepo, h]
      simp
    have hinf : ".git".data <:+: repo :=
      (List.isSuffixOf_iff_suffix.mp h).isInfix
    refine ⟨?_, ?_, ?_⟩
    · rw [hcanon]; exact takeUntilDotGit_front repo
    · rw [hcanon]; exact takeUntilDotGit_no_dotgit repo
    · rw [hcanon]; exact takeUntilDotGit_first_occurrence repo hinf

/-- C5 witness: the amended statement applied to the name x.git. -/
theorem canonicalizeRepo_amended_C5_witness :
    ".git".data.isSuffixOf "x.git".data = true ∧
    (canonicalizeRepo "x.git".data <+: "x.git".data ∧
      ¬ (".git".data <:+: canonicalizeRepo "x.git".data) ∧
      canonicalizeRepo "x.git".data ++ ".git".data <+: "x.git".data) :=
  ⟨by decide, (canonicalizeRepo_amended_C5 "x.git".data).2 (by decide)⟩

/-! ## Lemmas on trim_end_matches and the container name -/

theorem trimEndDotGitAux_of_not (fuel : Nat) (l : List Char)
    (h : ".git".data.isSuffixOf l = false) : trimEndDotGitAux fuel l = l := by
  cases fuel with
  | zero => rfl
  | succ f => simp [trimEndDotGitAux, h]

/-- C9 counterexample: trim_end_matches removes every trailing
repetition of .git, so for the repo a.git.git the container name is
o-a, while the claim derives o-a-git. -/
theorem container_name_counterexample_C9 :
    container_name "o".data "a.git.git".data ≠ claimedContainerName "o".data "a.git.git".data ∧
    container_name "o".data "a.git.git".data = "o-a".data ∧
    claimedContainerName "o".data "a.git.git".data = "o-a-git".data := by
  decide

/-- C9 (amended): the container name is owner-repo with every trailing
repetition of .git removed from the repo and every dot replaced by a
dash; whenever the repo does not end in the doubled suffix .git.git
this coincides with the single-suffix form the claim states. -/
theorem container_name_amended_C9 (owner repo : List Char)
    (h : ".git.git".data.isSuffixOf repo = false) :
    container_name owner repo = claimedContainerName owner repo := by
  rw [container_name, claimedContainerName]
  suffices htrim : trimEndDotGit repo =
      (if ".git".data.isSuffixOf repo then repo.take (repo.length - 4) else repo) by
    rw [htrim]
  by_cases hs : ".git".data.isSuffixOf repo = true
  · rw [if_pos hs]
    obtain ⟨p, hp⟩ := List.isSuffixOf_iff_suffix.mp hs
    have hplen : repo.length = p.length + 4 := by
      rw [← hp]; simp
    have htake : repo.take (repo.length - 4) = p := by
      rw [← hp]
      exact List.take_left' (by simp [hplen, ← hp])
    have hpns : ".git".data.isSuffixOf p = false := by
      by_contra hcon
      have hps : ".git".data.isSuffixOf p = true := by
        cases hph : ".git".data.isSuffixOf p with
        | true => rfl
        | false => exact absurd hph hcon
      obtain ⟨q, hq⟩ := List.isSuffixOf_iff_suffix.mp hps
      have hgg : ".git.git".data = ".git".data ++ ".git".data := by decide
      have : ".git.git".data.isSuffixOf repo = true := by
        rw [List.isSuffixOf_iff_suffix]
        refine ⟨q, ?_⟩
        rw [hgg, ← List.append_assoc, hq, hp]
      rw [this] at h
      exact absurd h (by simp)
    obtain ⟨m, hm⟩ : ∃ m, repo.length = m + 1 := ⟨repo.length - 1, by omega⟩
    rw [trimEndDotGit]
    have hstep : trimEndDotGitAux repo.length repo =
        trimEndDotGitAux m (repo.take (repo.length - 4)) := by
      conv_lhs => rw [hm]
      rw [show trimEndDotGitAux (m + 1) repo =
          (if ".git".data.isSuffixOf repo then
             trimEndDotGitAux m (repo.take (repo.length - 4))
           else repo) from rfl]
      rw [if_pos hs]
    rw [hstep, htake]
    exact trimEndDotGitAux_of_not m p hpns
  · have hs' : ".git".data.isSuffixOf repo = false := by
      cases hph : ".git".data.isSuffixOf repo with
      | true => exact absurd hph hs
      | false => rfl
    rw [if_neg (by rw [hs']; simp), trimEndDotGit]
    exact trimEndDotGitAux_of_not _ _ hs'

/-- C9 witness: the amended statement applied to owner my.owner and
repo re.po.git. -/
theorem container_name_amended_C9_witness :
    ".git.git".data.isSuffixOf "re.po.git".data = false ∧
    container_name "my.owner".data "re.po.git".data =
      claimedContainerName "my.owner".data "re.po.git".data :=
  ⟨by decide, container_name_amended_C9 "my.owner".data "re.po.git".data (by decide)⟩

/-! ## Lemmas on the pkt-line codec -/

theorem hexDigit_isLower (d : Nat) (h : d < 16) : IsLowerHexByte (hexDigit d).toNat := by
  interval_cases d <;> decide

theorem hexValByte_hexDigit (d : Nat) (h : d < 16) :
    hexValByte (hexDigit d).toNat = d := by
  interval_cases d <;> decide

theorem toHexAux_length_le (n : Nat) : ∀ k, n < 16 ^ k → (toHexAux n).length ≤ k := by
  induction n using Nat.strong_induction_on with
  | _ n ih =>
    intro k hk
    rw [toHexAux]
    split
    · simp
    · rename_i h0
      have hkpos : k ≠ 0 := by
        intro hk0
        subst hk0
        simp at hk
        omega
      obtain ⟨k2, rfl⟩ := Nat.exists_eq_succ_of_ne_zero hkpos
      have hdiv : n / 16 < 16 ^ k2 := by
        rw [Nat.div_lt_iff_lt_mul (by norm_num)]
        calc n < 16 ^ (k2 + 1) := hk
          _ = 16 ^ k2 * 16 := by rw [pow_succ]
      have hlt : n / 16 < n := Nat.div_lt_self (Nat.pos_of_ne_zero h0) (by norm_num)
      have := ih (n / 16) hlt k2 hdiv
      simp only [List.length_append, List.length_cons, List.length_nil]
      omega

theorem toHexAux_length_pos (n : Nat) (h : n ≠ 0) : 1 ≤ (toHexAux n).length := by
  rw [toHexAux]
  split
  · exact absurd (by assumption) h
  · simp

theorem toHexAux_mem (n : Nat) : ∀ c ∈ toHexAux n, ∃ d, d < 16 ∧ c = hexDigit d := by
  induction n using Nat.strong_induction_on with
  | _ n ih =>
    intro c hc
    rw [toHexAux] at hc
    split at hc
    · simp at hc
    · rename_i h0
      rcases List.mem_append.mp hc with hl | hr
      · exact ih (n / 16) (Nat.div_lt_self (Nat.pos_of_ne_zero h0) (by norm_num)) c hl
      · have : c = hexDigit (n % 16) := by simpa using hr
        exact ⟨n % 16, Nat.mod_lt n (by norm_num), this⟩

theorem parse_toHexAux (n : Nat) :
    ∀ a, List.foldl (fun acc c => acc * 16 + hexValByte c.toNat) a (toHexAux n) =
      a * 16 ^ (toHexAux n).length + n := by
  induction n using Nat.strong_induction_on with
  | _ n ih =>
    intro a
    rw [toHexAux]
    split
    · rename_i h0
      subst h0
      simp
    · rename_i h0
      rw [List.foldl_append]
      have hlt : n / 16 < n := Nat.div_lt_self (Nat.pos_of_ne_zero h0) (by norm_num)
      rw [ih (n / 16) hlt a]
      simp only [List.foldl_cons, List.foldl_nil, List.length_append, List.length_cons,
        List.length_nil]
      rw [hexValByte_hexDigit (n % 16) (Nat.mod_lt n (by norm_num))]
      calc (a * 16 ^ (toHexAux (n / 16)).length + n / 16) * 16 + n % 16
          = a * (16 ^ (toHexAux (n / 16)).length * 16) + (16 * (n / 16) + n % 16) := by ring
        _ = a * 16 ^ ((toHexAux (n / 16)).length + 0 + 1) + n := by
            rw [Nat.div_add_mod, pow_succ]

theorem parse_zeros (k : Nat) :
    List.foldl (fun acc c => acc * 16 + hexValByte c.toNat) 0 (List.replicate k '0') = 0 := by
  induction k with
  | zero => rfl
  | succ m ih => simpa [List.replicate_succ] using ih

theorem padMod4_eq (l : List Char) (h1 : 1 ≤ l.length) (h2 : l.length ≤ 4) :
    padMod4 l = List.replicate (4 - l.length) '0' ++ l := by
  have hc : l.length = 1 ∨ l.length = 2 ∨ l.length = 3 ∨ l.length = 4 := by omega
  rcases hc with h | h | h | h
  · rw [padMod4, if_neg (by simp [h]), padMod4, if_neg (by simp [h]), padMod4,
      if_neg (by simp [h]), padMod4, if_pos (by simp [h]), h]
    rfl
  · rw [padMod4, if_neg (by simp [h]), padMod4, if_neg (by simp [h]), padMod4,
      if_pos (by simp [h]), h]
    rfl
  · rw [padMod4, if_neg (by simp [h]), padMod4, if_pos (by simp [h]), h]
    rfl
  · rw [padMod4, if_pos (by simp [h]), h]
    simp

/-- C6: for every payload with length plus 4 at most 0xFFFF,
packet_write yields a 4-byte length prefix of lowercase hexadecimal
ASCII digits that parses back to the payload length plus 4, followed
by the payload itself, and packet_flush is the literal bytes 0000. -/
theorem packet_write_law_C6 (s : List Nat) (h : s.length + 4 ≤ 65535) :
    ((packet_write s).take 4).length = 4 ∧
    (∀ b ∈ (packet_write s).take 4, IsLowerHexByte b) ∧
    parseHexBytes ((packet_write s).take 4) = s.length + 4 ∧
    (packet_write s).drop 4 = s ∧
    packet_flush = [48, 48, 48, 48] := by
  set n := s.length + 4 with hn
  have hn0 : n ≠ 0 := by omega
  have hhex : toHex n = toHexAux n := by rw [toHex, if_neg hn0]
  have hL1 : 1 ≤ (toHexAux n).length := toHexAux_length_pos n hn0
  have hL4 : (toHexAux n).length ≤ 4 := toHexAux_length_le n 4 (by norm_num; omega)
  have hpad : padMod4 (toHex n) =
      List.replicate (4 - (toHexAux n).length) '0' ++ toHexAux n := by
    rw [hhex]
    exact padMod4_eq _ hL1 hL4
  have hmlen : ((List.replicate (4 - (toHexAux n).length) '0' ++ toHexAux n).map
      Char.toNat).length = 4 := by
    simp only [List.length_map, List.length_append, List.length_replicate]
    omega
  have hwrite : packet_write s =
      (List.replicate (4 - (toHexAux n).length) '0' ++ toHexAux n).map Char.toNat ++ s := by
    rw [packet_write, ← hn, hpad]
  have htake : (packet_write s).take 4 =
      (List.replicate (4 - (toHexAux n).length) '0' ++ toHexAux n).map Char.toNat := by
    rw [hwrite]
    exact List.take_left' hmlen
  refine ⟨?_, ?_, ?_, ?_, by decide⟩
  · rw [htake, hmlen]
  · intro b hb
    rw [htake] at hb
    obtain ⟨c, hc, rfl⟩ := List.mem_map.mp hb
    rcases List.mem_append.mp hc with hrep | hdig
    · rw [List.eq_of_mem_replicate hrep]
      decide
    · obtain ⟨d, hd, rfl⟩ := toHexAux_mem n c hdig
      exact hexDigit_isLower d hd
  · rw [htake, parseHexBytes, List.foldl_map, List.foldl_append, parse_zeros,
      parse_toHexAux n 0]
    simp
  · rw [hwrite]
    exact List.drop_left' hmlen

/-- C6 witness: the pkt-line law applied to the two payload bytes of
the string hi. -/
theorem packet_write_law_C6_witness :
    ([104, 105] : List Nat).length + 4 ≤ 65535 ∧
    (((packet_write [104, 105]).take 4).length = 4 ∧
      (∀ b ∈ (packet_write [104, 105]).take 4, IsLowerHexByte b) ∧
      parseHexBytes ((packet_write [104, 105]).take 4) = [104, 105].length + 4 ∧
      (packet_write [104, 105]).drop 4 = [104, 105] ∧
      packet_flush = [48, 48, 48, 48]) :=
  ⟨by decide, packet_write_law_C6 [104, 105] (by decide)⟩

/-! ## Step equations for the build queue transition function -/

theorem step_enqueue_pfalse (s : QueueState) (name : String) (i : Bool) :
    step s (.enqueue name false i) = s := by
  rw [step, if_pos (by simp)]

theorem step_enqueue_mem (s : QueueState) (name : String) (p i : Bool)
    (hmem : name ∈ s.wset) : step s (.enqueue name p i) = s := by
  rw [step]
  split
  · rfl
  · rfl


theorem step_enqueue_ifalse (s : QueueState) (name : String)
    (hmem : name ∉ s.wset) : step s (.enqueue name true false) = s := by
  rw [step, if_neg (by simp), if_neg hmem, if_pos (by simp)]

theorem step_enqueue_upd (s : QueueState) (name : String)
    (hmem : name ∉ s.wset) :
    step s (.enqueue name true true) =
      { s with records := s.records + 1, wset := name :: s.wset,
               queue := s.queue ++ [name] } := by
  rw [step, if_neg (by simp), if_neg hmem, if_neg (by simp)]

theorem step_dispatch_noslot (s : QueueState) (h : ¬ s.slots > 0) :
    step s .dispatch = s := by
  rw [step, if_neg h]

theorem step_dispatch_nil (s : QueueState) (h : s.queue = []) :
    step s .dispatch = s := by
  rw [step]
  split
  · rw [h]
  · rfl

theorem step_dispatch_cons (s : QueueState) (name : String) (rest : List String)
    (hpos : s.slots > 0) (h : s.queue = name :: rest) :
    step s .dispatch =
      { s with queue := rest, wset := s.wset.erase name,
               slots := s.slots - 1, inflight := name :: s.inflight } := by
  rw [step, if_pos hpos, h]

theorem step_finish_mem (s : QueueState) (name : String) (o : BuildOutcome)
    (hmem : name ∈ s.inflight) :
    step s (.finish name o) =
      { s with inflight := s.inflight.erase name, slots := s.slots + 1 } := by
  rw [step, if_pos hmem]

theorem step_finish_notmem (s : QueueState) (name : String) (o : BuildOutcome)
    (hmem : name ∉ s.inflight) : step s (.finish name o) = s := by
  rw [step, if_neg hmem]

/-! ## Invariants of the build queue -/

theorem step_preserves_QInv (s : QueueState) (e : QEvent) (h : QInv s) :
    QInv (step s e) := by
  obtain ⟨hq, hw, hiff⟩ := h
  cases e with
  | enqueue name p i =>
    by_cases hmem : name ∈ s.wset
    · rw [step_enqueue_mem s name p i hmem]
      exact ⟨hq, hw, hiff⟩
    · cases p with
      | false =>
        rw [step_enqueue_pfalse]
        exact ⟨hq, hw, hiff⟩
      | true =>
        cases i with
        | false =>
          rw [step_enqueue_ifalse s name hmem]
          exact ⟨hq, hw, hiff⟩
        | true =>
          rw [step_enqueue_upd s name hmem]
          refine ⟨?_, ?_, ?_⟩
          · rw [List.nodup_append]
            refine ⟨hq, by simp, ?_⟩
            intro x hx hx1
            rw [List.mem_singleton] at hx1
            subst hx1
            exact hmem ((hiff x).mp hx)
          · exact List.nodup_cons.mpr ⟨hmem, hw⟩
          · intro m
            simp only [List.mem_append, List.mem_singleton, List.mem_cons]
            rw [hiff m]
            tauto
  | dispatch =>
    by_cases hpos : s.slots > 0
    · match hqe : s.queue with
      | [] =>
        rw [step_dispatch_nil s hqe]
        exact ⟨hq, hw, hiff⟩
      | name :: rest =>
        rw [step_dispatch_cons s name rest hpos hqe]
        rw [hqe] at hq hiff
        obtain ⟨hnr, hrest⟩ := List.nodup_cons.mp hq
        refine ⟨hrest, hw.erase name, ?_⟩
        intro m
        rw [hw.mem_erase_iff]
        constructor
        · intro hm
          have hm1 : m ∈ s.wset := (hiff m).mp (List.mem_cons_of_mem _ hm)
          refine ⟨?_, hm1⟩
          intro heq
          subst heq
          exact hnr hm
        · rintro ⟨hne, hm⟩
          rcases List.mem_cons.mp ((hiff m).mpr hm) with heq | hmem
          · exact absurd heq hne
          · exact hmem
    · rw [step_dispatch_noslot s hpos]
      exact ⟨hq, hw, hiff⟩
  | finish name outcome =>
    by_cases hmem : name ∈ s.inflight
    · rw [step_finish_mem s name outcome hmem]
      exact ⟨hq, hw, hiff⟩
    · rw [step_finish_notmem s name outcome hmem]
      exact ⟨hq, hw, hiff⟩

theorem step_preserves_slots (K : Nat) (s : QueueState) (e : QEvent)
    (h : s.slots + s.inflight.length = K) :
    (step s e).slots + (step s e).inflight.length = K := by
  cases e with
  | enqueue name p i =>
    by_cases hmem : name ∈ s.wset
    · rw [step_enqueue_mem s name p i hmem]
      exact h
    · cases p with
      | false =>
        rw [step_enqueue_pfalse]
        exact h
      | true =>
        cases i with
        | false =>
          rw [step_enqueue_ifalse s name hmem]
          exact h
        | true =>
          rw [step_enqueue_upd s name hmem]
          exact h
  | dispatch =>
    by_cases hpos : s.slots > 0
    · match hqe : s.queue with
      | [] =>
        rw [step_dispatch_nil s hqe]
        exact h
      | name :: rest =>
        rw [step_dispatch_cons s name rest hpos hqe]
        simp only [List.length_cons]
        omega
    · rw [step_dispatch_noslot s hpos]
      exact h
  | finish name outcome =>
    by_cases hmem : name ∈ s.inflight
    · rw [step_finish_mem s name outcome hmem]
      simp only [List.length_erase_of_mem hmem]
      have : 1 ≤ s.inflight.length := List.length_pos.mpr (List.ne_nil_of_mem hmem)
      omega
    · rw [step_finish_notmem s name outcome hmem]
      exact h

theorem foldl_step_preserves {P : QueueState → Prop}
    (hP : ∀ s e, P s → P (step s e)) :
    ∀ (evts : List QEvent) (s : QueueState), P s → P (evts.foldl step s) := by
  intro evts
  induction evts with
  | nil => intro s h; exact h
  | cons e rest ih => intro s h; exact ih (step s e) (hP s e h)

theorem runQueue_QInv (K : Nat) (evts : List QEvent) : QInv (runQueue K evts) :=
  foldl_step_preserves step_preserves_QInv evts (initQueue K)
    ⟨List.nodup_nil, List.nodup_nil, by simp [initQueue]⟩

theorem runQueue_slots (K : Nat) (evts : List QEvent) :
    (runQueue K evts).slots + (runQueue K evts).inflight.length = K :=
  foldl_step_preserves (step_preserves_slots K) evts (initQueue K) (by simp [initQueue])

/-- C2 counterexample: with capacity 2, pushing the same container
name, dispatching, pushing it again and dispatching again leaves two
in-flight builds with the same name, so at most one queued OR
in-flight fails. Dedup only protects the waiting queue. -/
theorem queue_dedup_counterexample_C2 :
    (runQueue 2 [.enqueue "a" true true, .dispatch,
        .enqueue "a" true true, .dispatch]).inflight = ["a", "a"] ∧
    ¬ ((runQueue 2 [.enqueue "a" true true, .dispatch,
          .enqueue "a" true true, .dispatch]).queue.count "a" +
        (runQueue 2 [.enqueue "a" true true, .dispatch,
          .enqueue "a" true true, .dispatch]).inflight.count "a" ≤ 1) := by
  decide

/-- C2 (amended): at most one BuildItem with a given container_name is
queued at any time (the waiting queue never repeats a name, and holds
exactly the names in the waiting set); the enqueue task drops a
message whose name is in the waiting set without inserting a record
and without appending; a second same-name message observed while the
first is still queued changes nothing, so the pair causes exactly one
record insertion; the name leaves the waiting set at the moment the
item is popped for dispatch, and finishing a build does not touch the
waiting set - hence a same-name item may be queued or in flight again
while the first build is still running. -/
theorem queue_dedup_amended_C2 (K : Nat) (evts : List QEvent) :
    (runQueue K evts).queue.Nodup ∧
    (∀ n, n ∈ (runQueue K evts).queue ↔ n ∈ (runQueue K evts).wset) ∧
    (∀ s n p i, n ∈ s.wset → step s (.enqueue n p i) = s) ∧
    (∀ s n, n ∉ s.wset →
      (step s (.enqueue n true true)).records = s.records + 1 ∧
      step (step s (.enqueue n true true)) (.enqueue n true true) =
        step s (.enqueue n true true)) ∧
    (∀ s n rest, s.slots > 0 → s.queue = n :: rest →
      (step s .dispatch).wset = s.wset.erase n ∧
      (step s .dispatch).inflight = n :: s.inflight) ∧
    (∀ s n outcome, n ∈ s.inflight → (step s (.finish n outcome)).wset = s.wset) := by
  refine ⟨(runQueue_QInv K evts).1, (runQueue_QInv K evts).2.2, ?_, ?_, ?_, ?_⟩
  · intro s n p i hmem
    exact step_enqueue_mem s n p i hmem
  · intro s n hmem
    refine ⟨by rw [step_enqueue_upd s n hmem], ?_⟩
    rw [step_enqueue_upd s n hmem]
    exact step_enqueue_mem _ n true true (by simp)
  · intro s n rest hpos hqe
    rw [step_dispatch_cons s n rest hpos hqe]
    exact ⟨rfl, rfl⟩
  · intro s n outcome hmem
    rw [step_finish_mem s n outcome hmem]

/-- C2 witness: the amended statement applied after a single enqueue
of the name a with capacity 1. -/
theorem queue_dedup_amended_C2_witness :
    ((runQueue 1 [.enqueue "a" true true]).queue.Nodup) ∧
    ("a" ∈ (runQueue 1 [.enqueue "a" true true]).queue ↔
      "a" ∈ (runQueue 1 [.enqueue "a" true true]).wset) ∧
    ("a" ∈ (runQueue 1 [.enqueue "a" true true]).wset →
      step (runQueue 1 [.enqueue "a" true true]) (.enqueue "a" true true) =
        runQueue 1 [.enqueue "a" true true]) :=
  ⟨(queue_dedup_amended_C2 1 [.enqueue "a" true true]).1,
   (queue_dedup_amended_C2 1 [.enqueue "a" true true]).2.1 "a",
   (queue_dedup_amended_C2 1 [.enqueue "a" true true]).2.2.1
     (runQueue 1 [.enqueue "a" true true]) "a" true true⟩

/-- C3: with capacity K, along any sequence of enqueue, dispatch and
finish events the available slot count plus the number of in-flight
builds equals K, so the number of concurrently dispatched builds never
exceeds K and once the in-flight builds drain the slot count is K
again; a dispatch of a queued item decrements the slots by exactly one
and a finishing build increments them by exactly one whatever its
outcome. -/
theorem build_slots_invariant_C3 (K : Nat) (evts : List QEvent) :
    (runQueue K evts).slots + (runQueue K evts).inflight.length = K ∧
    (runQueue K evts).inflight.length ≤ K ∧
    ((runQueue K evts).inflight = [] → (runQueue K evts).slots = K) ∧
    (∀ s name outcome, name ∈ s.inflight →
      (step s (.finish name outcome)).slots = s.slots + 1) ∧
    (∀ s name rest, s.slots > 0 → s.queue = name :: rest →
      (step s .dispatch).slots + 1 = s.slots) := by
  have hrun := runQueue_slots K evts
  refine ⟨hrun, by omega, ?_, ?_, ?_⟩
  · intro hempty
    rw [hempty] at hrun
    simpa using hrun
  · intro s name outcome hmem
    rw [step_finish_mem s name outcome hmem]
  · intro s name rest hpos hqe
    rw [step_dispatch_cons s name rest hpos hqe]
    simp only
    omega

/-- C3 witness: the invariant applied to capacity 2 after one enqueue
and one dispatch, and the slot release applied to a concrete state. -/
theorem build_slots_invariant_C3_witness :
    ((runQueue 2 [.enqueue "a" true true, .dispatch]).slots +
        (runQueue 2 [.enqueue "a" true true, .dispatch]).inflight.length = 2) ∧
    ("a" ∈ (⟨1, [], [], ["a"], 1⟩ : QueueState).inflight →
      (step ⟨1, [], [], ["a"], 1⟩ (.finish "a" .timeoutExpired)).slots = 1 + 1) :=
  ⟨(build_slots_invariant_C3 2 [.enqueue "a" true true, .dispatch]).1,
   (build_slots_invariant_C3 2 []).2.2.2.1 ⟨1, [], [], ["a"], 1⟩ "a" .timeoutExpired⟩

/-- C7: when the builder invocation for a dispatched item runs into
the per-build timeout, the wrapper task updates the build record to
status failed with the log Build timeout after N seconds, where N is
the configured millisecond timeout divided by 1000 in whole seconds,
and the build slot is still released afterwards. -/
theorem build_timeout_C7 (timeoutMs : Nat) (s : QueueState) (name : String)
    (h : name ∈ s.inflight) :
    buildTaskRecordUpdate timeoutMs .timeoutExpired =
      some ("failed", "Build timeout after " ++ toString (timeoutMs / 1000) ++ " seconds") ∧
    (step s (.finish name .timeoutExpired)).slots = s.slots + 1 := by
  constructor
  · rfl
  · rw [step_finish_mem s name .timeoutExpired h]

/-- C7 witness: a 2500 millisecond timeout truncates to 2 whole
seconds, and the slot held by the timed-out build is released. -/
theorem build_timeout_C7_witness :
    ("x" ∈ (⟨0, [], [], ["x"], 1⟩ : QueueState).inflight) ∧
    (buildTaskRecordUpdate 2500 .timeoutExpired =
      some ("failed", "Build timeout after " ++ toString (2500 / 1000) ++ " seconds") ∧
     (step ⟨0, [], [], ["x"], 1⟩ (.finish "x" .timeoutExpired)).slots = 0 + 1) :=
  ⟨by decide, build_timeout_C7 2500 ⟨0, [], [], ["x"], 1⟩ "x" (by decide)⟩

/-! ## Push-auth middleware theorems -/

/-- C4 counterexample: refutes the claim that a request passes the
middleware only when some store row has project_owner equal to the
route owner. The store holds a single row: owner bob, project proj,
token tok. A request to the route of owner alice and repo proj.git,
carrying the Basic credentials bob colon tok (base64 Ym9iOnRvaw==),
passes the middleware even though no row at all matches the path owner
alice, for which the claim demands a 401 rejection: the source binds
the path owner as an unused underscore and compares only the owner
name decoded from the credentials. -/
theorem basic_auth_counterexample_C4 :
    basic_auth_route true "alice".data "proj.git".data
      (some "Basic Ym9iOnRvaw==".data) c4store = .pass ∧
    ¬ ∃ r ∈ c4rows, r.token = "tok".data ∧
        r.project_name = canonicalizeRepo "proj.git".data ∧
        r.project_owner = "alice".data := by
  decide

/-- C4 (amended): with git_auth enabled, a request without an
Authorization header, or whose scheme is not Basic, is rejected 401
with realm git and empty body; the route owner parameter is ignored by
the middleware (any two path owners give the same decision); with a
well-formed Basic header whose credentials decode to an owner name and
token, and a store answering rows for that decoded owner, the request
passes the middleware exactly when some row matches the canonicalized
repo, the decoded owner name and the token byte for byte, and any
mismatch is rejected 401 with realm failed to login. -/
theorem basic_auth_gate_C4 (repo auth tok owner_name token : List Char)
    (store : List Char → StoreResult) (rows : List AuthRow)
    (hsplit : wsTokens auth = ["Basic".data, tok])
    (hdec : decodeCreds tok = some (owner_name, token))
    (hstore : store owner_name = .ok rows) :
    (∀ ga powner1 powner2 hdr,
      basic_auth_route ga powner1 repo hdr store =
        basic_auth_route ga powner2 repo hdr store) ∧
    basic_auth true repo none store = .reject 401 "git" true ∧
    (∀ auth2, (wsTokens auth2).getD 0 [] ≠ "Basic".data →
      basic_auth true repo (some auth2) store = .reject 401 "git" true) ∧
    (basic_auth true repo (some auth) store = .pass ↔
      ∃ r ∈ rows, r.token = token ∧ r.project_name = canonicalizeRepo repo ∧
        r.project_owner = owner_name) ∧
    ((¬ ∃ r ∈ rows, r.token = token ∧ r.project_name = canonicalizeRepo repo ∧
        r.project_owner = owner_name) →
      basic_auth true repo (some auth) store = .reject 401 "failed to login" true) := by
  have hmain : basic_auth true repo (some auth) store =
      (if rows.any (fun r =>
          r.token == token && r.project_name == canonicalizeRepo repo &&
            r.project_owner == owner_name) = true
       then AuthDecision.pass else .reject 401 "failed to login" true) := by
    simp only [basic_auth, hsplit, hdec, hstore]
    simp
    rw [hdec]
    simp only [hstore]
  have hany : (rows.any (fun r =>
      r.token == token && r.project_name == canonicalizeRepo repo &&
        r.project_owner == owner_name) = true) ↔
      ∃ r ∈ rows, r.token = token ∧ r.project_name = canonicalizeRepo repo ∧
        r.project_owner = owner_name := by
    rw [List.any_eq_true]
    constructor
    · rintro ⟨r, hr, hp⟩
      simp only [Bool.and_eq_true, beq_iff_eq] at hp
      exact ⟨r, hr, hp.1.1, hp.1.2, hp.2⟩
    · rintro ⟨r, hr, h1, h2, h3⟩
      exact ⟨r, hr, by simp [h1, h2, h3]⟩
  refine ⟨fun _ _ _ _ => rfl, rfl, ?_, ?_, ?_⟩
  · intro auth2 hne
    simp only [basic_auth]
    rw [if_neg (by simp), if_pos hne]
  · rw [hmain]
    by_cases hc : rows.any (fun r =>
        r.token == token && r.project_name == canonicalizeRepo repo &&
          r.project_owner == owner_name) = true
    · rw [if_pos hc]
      exact iff_of_true rfl (hany.mp hc)
    · rw [if_neg hc]
      constructor
      · intro hcontra
        exact absurd hcontra (by simp)
      · intro hex
        exact absurd (hany.mpr hex) hc
  · intro hnex
    rw [hmain, if_neg]
    intro hc
    exact hnex (hany.mp hc)

/-- C4 witness: the gate applied to the repo r.git with credentials of
owner a and token b encoded as the base64 string YTpi, against a store
holding exactly the matching row. -/
theorem basic_auth_gate_C4_witness :
    wsTokens "Basic YTpi".data = ["Basic".data, "YTpi".data] ∧
    decodeCreds "YTpi".data = some ("a".data, "b".data) ∧
    witnessStore "a".data =
      .ok [{ project_name := "r".data, project_owner := "a".data, token := "b".data }] ∧
    (basic_auth true "r.git".data (some "Basic YTpi".data) witnessStore = .pass ↔
      ∃ r ∈ [({ project_name := "r".data, project_owner := "a".data,
                token := "b".data } : AuthRow)],
        r.token = "b".data ∧ r.project_name = canonicalizeRepo "r.git".data ∧
          r.project_owner = "a".data) :=
  ⟨by decide, by decide, rfl,
   (basic_auth_gate_C4 "r.git".data "Basic YTpi".data "YTpi".data "a".data "b".data
      witnessStore
      [{ project_name := "r".data, project_owner := "a".data, token := "b".data }]
      (by decide) (by decide) rfl).2.2.2.1⟩

/-- C10: basic_auth is not total: with git_auth enabled, a Basic
header whose payload is not valid base64 makes the middleware panic on
unwrap, and likewise a payload that is valid base64 but decodes to
bytes that are not valid UTF-8; neither case returns a 401. -/
theorem basic_auth_panics_C10 :
    basic_auth true "repo".data (some "Basic !!!".data) (fun _ => .ok []) = .panic ∧
    basic_auth true "repo".data (some "Basic gA==".data) (fun _ => .ok []) = .panic := by
  decide

/-! ## receive_pack_rpc synchronizer theorems -/

/-- C1: whenever the inner service_rpc returned 200 with a body not
flagged Content-Length 0, the handler resolves the bare HEAD; on
success it removes any existing working copy under the clone path,
clones the bare repository there, detaches the clone HEAD at exactly
the recorded bare HEAD commit, enqueues the build item, and passes the
rpc response through, leaving the clone HEAD equal to the bare HEAD;
if HEAD resolution fails or the clone fails, it answers 500 with an
empty body. -/
theorem receive_pack_sync_C1 (base owner repo : List Char) (env : SyncEnv)
    (st : FsState) (h : Nat)
    (h200 : env.rpcStatus = 200) (hlen : env.rpcContentLengthZero = false)
    (hrm : env.removeOk = true) :
    (env.bareHead = some h → env.cloneOk = true → env.setHeadOk = true →
      (receive_pack_rpc base owner repo env st).1 = .passthrough ∧
      (receive_pack_rpc base owner repo env st).2.1.clonePresent = true ∧
      (receive_pack_rpc base owner repo env st).2.1.cloneHead = env.bareHead ∧
      (receive_pack_rpc base owner repo env st).2.2 =
        (if st.clonePresent then [SyncAction.removeClone] else []) ++
          [SyncAction.cloneRepo, SyncAction.setHead h] ++
          (if env.checkoutOk then [SyncAction.checkoutHead] else []) ++
          [SyncAction.enqueueItem (container_name owner repo)
            (repoPath base owner repo ++ "/clone".data)]) ∧
    (env.bareHead = none →
      receive_pack_rpc base owner repo env st = (.errorResp 500 true, st, [])) ∧
    (env.bareHead = some h → env.cloneOk = false →
      (receive_pack_rpc base owner repo env st).1 = .errorResp 500 true) := by
  obtain ⟨rpcStatus, rpcCLZ, bareHead, removeOk, cloneOk, setHeadOk, checkoutOk⟩ := env
  obtain ⟨clonePresent, cloneHead⟩ := st
  simp only at h200 hlen hrm
  subst h200 hlen hrm
  refine ⟨?_, ?_, ?_⟩
  · intro hbare hclone hset
    simp only at hbare hclone hset
    subst hbare hclone hset
    cases clonePresent <;> cases checkoutOk <;>
      simp [receive_pack_rpc]
  · intro hbare
    simp only at hbare
    subst hbare
    simp [receive_pack_rpc]
  · intro hbare hclone
    simp only at hbare hclone
    subst hbare hclone
    cases clonePresent <;> simp [receive_pack_rpc]

/-- C1 witness: the synchronizer applied to a concrete successful run
over an existing working copy, with bare HEAD at commit 42. -/
theorem receive_pack_sync_C1_witness :
    ((⟨200, false, some 42, true, true, true, true⟩ : SyncEnv).bareHead = some 42) ∧
    ((receive_pack_rpc "b".data "o".data "r".data
        ⟨200, false, some 42, true, true, true, true⟩ ⟨true, some 7⟩).1 = .passthrough ∧
      (receive_pack_rpc "b".data "o".data "r".data
        ⟨200, false, some 42, true, true, true, true⟩ ⟨true, some 7⟩).2.1.clonePresent = true ∧
      (receive_pack_rpc "b".data "o".data "r".data
        ⟨200, false, some 42, true, true, true, true⟩ ⟨true, some 7⟩).2.1.cloneHead =
          (⟨200, false, some 42, true, true, true, true⟩ : SyncEnv).bareHead ∧
      (receive_pack_rpc "b".data "o".data "r".data
        ⟨200, false, some 42, true, true, true, true⟩ ⟨true, some 7⟩).2.2 =
        (if (⟨true, some 7⟩ : FsState).clonePresent then [SyncAction.removeClone] else []) ++
          [SyncAction.cloneRepo, SyncAction.setHead 42] ++
          (if (⟨200, false, some 42, true, true, true, true⟩ : SyncEnv).checkoutOk then
            [SyncAction.checkoutHead] else []) ++
          [SyncAction.enqueueItem (container_name "o".data "r".data)
            (repoPath "b".data "o".data "r".data ++ "/clone".data)]) :=
  ⟨rfl,
   (receive_pack_sync_C1 "b".data "o".data "r".data
      ⟨200, false, some 42, true, true, true, true⟩ ⟨true, some 7⟩ 42
      rfl rfl rfl).1 rfl rfl rfl⟩

/-! ## get_info_refs dumb branch theorem -/

/-- C8: evaluation of the dumb branch at its failing input. The source
opens the bare repository path itself instead of the info/refs file
inside it: on a filesystem whose only readable file is the info/refs
file of the repository b/o/r.git, the handler answers 404 instead of
serving that file, because the path it opens is not the info/refs
path. -/
theorem info_refs_dumb_bug_C8 :
    c8fs (repoPath "b".data "o".data "r".data ++ "/info/refs".data) = some "REFS" ∧
    get_info_refs_dumb c8fs "b".data "o".data "r".data "git-dumb".data =
      some { status := 404, body := none, contentType := none } ∧
    repoPath "b".data "o".data "r".data ≠
      repoPath "b".data "o".data "r".data ++ "/info/refs".data := by
  refine ⟨by decide, by decide, by decide⟩

end Pws
